import Mathlib

/-
Verification development for the cardano-connector-go normalization layer.
Each Go adapter function relevant to the claims is embedded as an executable
Lean definition; external collaborators (the apollo address decoder, the CBOR
codec for plutus data, and the backend HTTP/gRPC clients) are passed in as
function parameters, mirroring the way the Go code calls out to them.
Byte strings are lists of Nat, machine integers are Int/Nat (the quantities
involved never overflow in the claims considered).
-/

/-- Error kinds used across the provider models.  `notFound` models an error
that wraps connector.ErrNotFound (errors.Is succeeds); `msg` models a plain
errors.New / fmt.Errorf error carrying only a message; `outOfFuel` is the
artificial result used when a loop model runs out of fuel (the Go loops are
unbounded; every theorem supplies enough fuel for the backend at hand). -/
inductive PErr where
  | notFound : PErr
  | invalidAddress : PErr
  | invalidInput : PErr
  | multipleUTXOs : PErr
  | outOfFuel : PErr
  | msg (s : String) : PErr
deriving DecidableEq, Repr

/-- Value of a single hex digit, as in Go's encoding/hex. -/
def hexDigit? (c : Char) : Option Nat :=
  if '0' ≤ c ∧ c ≤ '9' then some (c.toNat - '0'.toNat)
  else if 'a' ≤ c ∧ c ≤ 'f' then some (c.toNat - 'a'.toNat + 10)
  else if 'A' ≤ c ∧ c ≤ 'F' then some (c.toNat - 'A'.toNat + 10)
  else none

/-- Decode a list of hex characters to bytes; fails on odd length or an
invalid digit, exactly as Go's hex.DecodeString does. -/
def hexBytes? : List Char → Option (List Nat)
  | [] => some []
  | [_] => none
  | c1 :: c2 :: rest =>
    match hexDigit? c1, hexDigit? c2, hexBytes? rest with
    | some h, some l, some tail => some ((16 * h + l) :: tail)
    | _, _, _ => none

/-- Model of Go's hex.DecodeString. -/
def hexDecode (s : String) : Option (List Nat) := hexBytes? s.data

/-- The byte slice Go's hex.DecodeString returns even when it also returns
an error: the pairs fully decoded before the first invalid character or the
odd trailing character (hex.Decode returns dst[:i] at the point of failure).
On well-formed input this coincides with the successful decode. -/
def hexBytesPartial : List Char → List Nat
  | [] => []
  | [_] => []
  | c1 :: c2 :: rest =>
    match hexDigit? c1, hexDigit? c2 with
    | some h, some l => (16 * h + l) :: hexBytesPartial rest
    | _, _ => []

/-- Byte slice of Go's hex.DecodeString with the error ignored, as in a
blank-identifier assignment decoded, _ := hex.DecodeString(s). -/
def hexDecodePartial (s : String) : List Nat := hexBytesPartial s.data

/-- Value of a decimal digit character. -/
def decDigit? (c : Char) : Option Nat :=
  if '0' ≤ c ∧ c ≤ '9' then some (c.toNat - '0'.toNat) else none

/-- Accumulating decimal parse over characters; none on a non-digit. -/
def decDigitsAux : List Char → Nat → Option Nat
  | [], acc => some acc
  | c :: rest, acc =>
    match decDigit? c with
    | some d => decDigitsAux rest (acc * 10 + d)
    | none => none

/-- Parse a nonempty all-digit string to a Nat. -/
def decDigits? : List Char → Option Nat
  | [] => none
  | cs => decDigitsAux cs 0

/-- Model of Go's strconv.ParseUint(s, 10, bits): digits only, range checked
against 2^bits. -/
def parseUintGo (s : String) (bits : Nat) : Option Nat :=
  match decDigits? s.data with
  | none => none
  | some v => if v < 2 ^ bits then some v else none

/-- Model of Go's strconv.ParseInt(s, 10, bits): optional sign, digits,
range checked against the signed range of the given bit size. -/
def parseIntGo (s : String) (bits : Nat) : Option Int :=
  let core : List Char → Bool → Option Int := fun cs neg =>
    match decDigits? cs with
    | none => none
    | some v =>
      let i : Int := if neg then -(v : Int) else (v : Int)
      if -(2 ^ (bits - 1) : Int) ≤ i ∧ i < (2 ^ (bits - 1) : Int) then some i else none
  match s.data with
  | '-' :: rest => core rest true
  | '+' :: rest => core rest false
  | cs => core cs false

/-- Turn an Except into an Option, forgetting the error. -/
def eToOption : Except PErr α → Option α
  | Except.ok a => some a
  | Except.error _ => none

/-- Datum attached to a post-Alonzo output: either a datum hash (raw bytes)
or an inline datum decoded to structured plutus data (the abstract type PD,
decoded by the external CBOR codec). Mirrors apollo PlutusData.DatumOption. -/
inductive DatumOpt (PD : Type) where
  | hashD (bytes : List Nat) : DatumOpt PD
  | inlineD (pd : PD) : DatumOpt PD
deriving DecidableEq, Repr

/-- Multi-asset value as assembled by the adapters: lovelace coin plus a flat
(policyIdHex, assetNameHex, quantity) association list with map-overwrite
semantics, and the HasAssets flag of apollo Value.Value. -/
structure GoValue where
  coin : Int
  assets : List (String × String × Int)
  hasAssets : Bool
deriving DecidableEq, Repr

/-- Insert-with-overwrite into the flat multi-asset list, modelling
Go's nested map assignment multiAssets[policyID][assetName] = quantity. -/
def massetInsert : List (String × String × Int) → String → String → Int →
    List (String × String × Int)
  | [], p, a, q => [(p, a, q)]
  | (p1, a1, q1) :: rest, p, a, q =>
    if p1 = p ∧ a1 = a then (p, a, q) :: rest
    else (p1, a1, q1) :: massetInsert rest p a q

/-- Transaction output in the shape apollo's TransactionOutput takes after an
adapter built it: the IsPostAlonzo flag selects which of the two sub-structs
is populated, so the Go struct is a tagged union. -/
inductive TxOutput (Addr PD : Type) where
  | preAlonzo (address : Addr) (amount : GoValue) : TxOutput Addr PD
  | postAlonzo (address : Addr) (amount : GoValue)
      (datum : Option (DatumOpt PD)) (scriptRef : Option (List Nat)) : TxOutput Addr PD
deriving DecidableEq, Repr

/-- IsPostAlonzo flag of a built output. -/
def isPostAlonzoOut : TxOutput Addr PD → Bool
  | TxOutput.preAlonzo _ _ => false
  | TxOutput.postAlonzo _ _ _ _ => true

/-- Datum field of a built output (none for a pre-Alonzo output, which has no
datum capability). -/
def outputDatum : TxOutput Addr PD → Option (DatumOpt PD)
  | TxOutput.preAlonzo _ _ => none
  | TxOutput.postAlonzo _ _ d _ => d

/-- ScriptRef field of a built output. -/
def outputScriptRef : TxOutput Addr PD → Option (List Nat)
  | TxOutput.preAlonzo _ _ => none
  | TxOutput.postAlonzo _ _ _ s => s

/-- Transaction input: decoded transaction id bytes and output index. -/
structure GoTxInput where
  transactionId : List Nat
  index : Nat
deriving DecidableEq, Repr

/-- A canonical UTxO as produced by the adapters. -/
structure GoUTxO (Addr PD : Type) where
  input : GoTxInput
  output : TxOutput Addr PD
deriving DecidableEq, Repr

/-- Raw Blockfrost output/UTxO record: the fields of BlockfrostUTXO and of
Base.Output that the adapters read. amount is the (unit, quantity-string)
list;  empty strings model absent datum-hash / inline-datum / script-hash
fields, as the Go code tests them with != "". -/
structure BlockfrostUTXO where
  address : String
  txHash : String
  outputIndex : Nat
  amount : List (String × String)
  dataHash : String
  inlineDatum : String
  refScriptHash : String
deriving DecidableEq, Repr

/-- Strict amount assembly of adaptBlockfrostTxOutputToApolloUTxO: a quantity
that fails strconv.ParseInt aborts with an error.  Units other than
"lovelace" are sliced at offset 56 into policy id and asset name (the Go
code slices unconditionally; units are at least 56 chars by construction). -/
def bfAmountsStrict : List (String × String) → Int → List (String × String × Int) →
    Except PErr (Int × List (String × String × Int))
  | [], coin, assets => Except.ok (coin, assets)
  | (unit, qty) :: rest, coin, assets =>
    match parseIntGo qty 64 with
    | none => Except.error (PErr.msg ("invalid quantity " ++ qty ++ " for unit " ++ unit))
    | some q =>
      if unit = "lovelace" then bfAmountsStrict rest q assets
      else bfAmountsStrict rest coin (massetInsert assets (unit.take 56) (unit.drop 56) q)

/-- Lenient amount assembly of adaptBlockfrostAddressUTxOs: a quantity that
fails to parse is skipped with continue, leaving the coin (or asset entry)
at its zero value. -/
def bfAmountsLenient : List (String × String) → Int → List (String × String × Int) →
    Int × List (String × String × Int)
  | [], coin, assets => (coin, assets)
  | (unit, qty) :: rest, coin, assets =>
    match parseIntGo qty 64 with
    | none => bfAmountsLenient rest coin assets
    | some q =>
      if unit = "lovelace" then bfAmountsLenient rest q assets
      else bfAmountsLenient rest coin (massetInsert assets (unit.take 56) (unit.drop 56) q)

/-- Package coin and assets into a value with the HasAssets flag, as both
Blockfrost adapters do after the amount loop. -/
def mkGoValue (coin : Int) (assets : List (String × String × Int)) : GoValue :=
  if assets.length > 0 then ⟨coin, assets, true⟩ else ⟨coin, [], false⟩

/-- Datum-hash step of the post-Alonzo branch: set the hash datum only when
the field is nonempty and its hex decodes (a hex failure is silently ignored,
err == nil guards the assignment). -/
def bfDatumHashStep (dataHash : String) : Option (DatumOpt PD) :=
  if dataHash ≠ "" then
    match hexDecode dataHash with
    | some bs => some (DatumOpt.hashD bs)
    | none => none
  else none

/-- Inline-datum step of adaptBlockfrostTxOutputToApolloUTxO: when the inline
datum field is nonempty it must hex-decode and CBOR-decode, and then
overwrites any datum-hash already set; either failure aborts with an error. -/
def bfInlineDatumStrict (cborPD : List Nat → Option PD) (inlineDatum : String)
    (d0 : Option (DatumOpt PD)) : Except PErr (Option (DatumOpt PD)) :=
  if inlineDatum ≠ "" then
    match hexDecode inlineDatum with
    | none => Except.error (PErr.msg "failed to decode inline datum")
    | some bytes =>
      match cborPD bytes with
      | none => Except.error (PErr.msg "failed to unmarshal inline datum")
      | some pd => Except.ok (some (DatumOpt.inlineD pd))
  else Except.ok d0

/-- Reference-script step of adaptBlockfrostTxOutputToApolloUTxO: resolve the
script hash through the side-lookup collaborator and hex-decode the result;
either failure aborts with an error. -/
def bfScriptRefStrict (getScriptCbor : String → Except PErr String)
    (refScriptHash : String) : Except PErr (Option (List Nat)) :=
  if refScriptHash ≠ "" then
    match getScriptCbor refScriptHash with
    | Except.error e => Except.error e
    | Except.ok s =>
      match hexDecode s with
      | none => Except.error (PErr.msg "failed to decode script cbor")
      | some bs => Except.ok (some bs)
  else Except.ok none

/-- Embedding of adaptBlockfrostTxOutputToApolloUTxO (blockfrost/adapter.go):
the strict, error-propagating output builder used by GetUtxosByOutRef.
decodeAddr and cborPD are the external apollo address decoder and plutus-data
CBOR codec; getScriptCbor is the provider's script-by-hash side lookup. -/
def adaptBlockfrostTxOutputToApolloUTxO (decodeAddr : String → Option Addr)
    (cborPD : List Nat → Option PD) (getScriptCbor : String → Except PErr String)
    (txHashStr : String) (o : BlockfrostUTXO) : Except PErr (GoUTxO Addr PD) :=
  match hexDecode txHashStr with
  | none => Except.error (PErr.msg "invalid tx_hash hex")
  | some txHashBytes =>
    match decodeAddr o.address with
    | none => Except.error (PErr.msg ("failed to decode address " ++ o.address))
    | some addr =>
      match bfAmountsStrict o.amount 0 [] with
      | Except.error e => Except.error e
      | Except.ok (coin, assets) =>
        let val := mkGoValue coin assets
        if o.dataHash ≠ "" ∨ o.inlineDatum ≠ "" ∨ o.refScriptHash ≠ "" then
          match bfInlineDatumStrict cborPD o.inlineDatum (bfDatumHashStep o.dataHash) with
          | Except.error e => Except.error e
          | Except.ok datum =>
            match bfScriptRefStrict getScriptCbor o.refScriptHash with
            | Except.error e => Except.error e
            | Except.ok sref =>
              Except.ok ⟨⟨txHashBytes, o.outputIndex⟩,
                TxOutput.postAlonzo addr val datum sref⟩
        else
          Except.ok ⟨⟨txHashBytes, o.outputIndex⟩, TxOutput.preAlonzo addr val⟩

/-- Per-item body of adaptBlockfrostAddressUTxOs (blockfrost/adapter.go): the
lenient builder used by the address-listing operations.  Every failure path
is a continue in the Go loop, so the item yields none and is silently
dropped; in particular a malformed tx-hash hex, an undecodable address, or a
failing script side-lookup drop the whole item, and a malformed quantity or
datum field is skipped leaving the zero value. -/
def adaptBfAddressUtxoItem (decodeAddr : String → Option Addr)
    (cborPD : List Nat → Option PD) (getScriptCbor : String → Except PErr String)
    (originalAddress : String) (u : BlockfrostUTXO) : Option (GoUTxO Addr PD) :=
  match hexDecode u.txHash with
  | none => none
  | some txHashBytes =>
    let (coin, assets) := bfAmountsLenient u.amount 0 []
    let val := mkGoValue coin assets
    match decodeAddr originalAddress with
    | none => none
    | some addr =>
      if u.dataHash ≠ "" ∨ u.inlineDatum ≠ "" ∨ u.refScriptHash ≠ "" then
        let d0 : Option (DatumOpt PD) := bfDatumHashStep u.dataHash
        let d1 : Option (DatumOpt PD) :=
          if u.inlineDatum ≠ "" then
            match hexDecode u.inlineDatum with
            | none => d0
            | some bytes =>
              match cborPD bytes with
              | none => d0
              | some pd => some (DatumOpt.inlineD pd)
          else d0
        if u.refScriptHash ≠ "" then
          match getScriptCbor u.refScriptHash with
          | Except.error _ => none
          | Except.ok s =>
            match hexDecode s with
            | none => none
            | some bs =>
              some ⟨⟨txHashBytes, u.outputIndex⟩, TxOutput.postAlonzo addr val d1 (some bs)⟩
        else
          some ⟨⟨txHashBytes, u.outputIndex⟩, TxOutput.postAlonzo addr val d1 none⟩
      else
        some ⟨⟨txHashBytes, u.outputIndex⟩, TxOutput.preAlonzo addr val⟩

/-- Embedding of adaptBlockfrostAddressUTxOs (blockfrost/adapter.go): adapts
a list of raw address UTxOs, silently dropping any item whose adaptation
fails — the function returns a plain list, it has no error channel at all. -/
def adaptBlockfrostAddressUTxOs (decodeAddr : String → Option Addr)
    (cborPD : List Nat → Option PD) (getScriptCbor : String → Except PErr String)
    (originalAddress : String) (bfUtxos : List BlockfrostUTXO) : List (GoUTxO Addr PD) :=
  bfUtxos.filterMap (adaptBfAddressUtxoItem decodeAddr cborPD getScriptCbor originalAddress)

/-- Raw Kupo match record (kugo.Match): fields read by
adaptKupoMatchToApolloUTxO. value is the policy → (assetName → quantity)
nested map as a nested association list; datumType is "inline" or "datum"
when Kupo holds the datum CBOR. -/
structure KupoMatch where
  transactionID : String
  outputIndex : Nat
  value : List (String × List (String × Int))
  datumHash : String
  datumType : String
  scriptHash : String
  address : String
deriving DecidableEq, Repr

/-- Value assembly of adaptKupoMatchToApolloUTxO: the ada/lovelace entry
becomes the coin, everything else a multi-asset entry. -/
def kupoValueFold : List (String × List (String × Int)) → Int →
    List (String × String × Int) → Int × List (String × String × Int)
  | [], coin, assets => (coin, assets)
  | (policyHex, policyAssets) :: rest, coin, assets =>
    let (coin2, assets2) := kupoValueInner policyHex policyAssets coin assets
    kupoValueFold rest coin2 assets2
where
  kupoValueInner (policyHex : String) :
      List (String × Int) → Int → List (String × String × Int) →
      Int × List (String × String × Int)
    | [], coin, assets => (coin, assets)
    | (assetNameHex, q) :: more, coin, assets =>
      if policyHex = "ada" ∧ assetNameHex = "lovelace" then
        kupoValueInner policyHex more q assets
      else
        kupoValueInner policyHex more coin (massetInsert assets policyHex assetNameHex q)

/-- Inline-datum resolution of adaptKupoMatchToApolloUTxO: fetch the datum
CBOR from Kupo by hash and decode it; every failure is ignored and yields
none (the code then falls back to the datum hash). -/
def kupoInlineDatum (cborPD : List Nat → Option PD)
    (getDatum : String → Except PErr String) (datumHash : String) : Option PD :=
  match getDatum datumHash with
  | Except.error _ => none
  | Except.ok s =>
    if s ≠ "" then
      match hexDecode s with
      | none => none
      | some bytes => cborPD bytes
    else none

/-- Embedding of adaptKupoMatchToApolloUTxO (kupmios): note the output is
constructed with IsPostAlonzo set to true unconditionally, before any datum
or script field is examined.  getScript returns Kupo's script record (none
models a nil *Script); script failures are silently ignored. -/
def adaptKupoMatchToApolloUTxO (decodeAddr : String → Option Addr)
    (cborPD : List Nat → Option PD) (getDatum : String → Except PErr String)
    (getScript : String → Except PErr (Option String))
    (m : KupoMatch) (addr : String) : Except PErr (GoUTxO Addr PD) :=
  match hexDecode m.transactionID with
  | none => Except.error (PErr.msg ("invalid tx_hash hex from Kupo " ++ m.transactionID))
  | some txHashBytes =>
    let (coin, assets) := kupoValueFold m.value 0 []
    let val := mkGoValue coin assets
    match decodeAddr addr with
    | none => Except.error (PErr.msg "invalid address")
    | some a =>
      let datum : Option (DatumOpt PD) :=
        if m.datumHash ≠ "" then
          match (if m.datumType = "inline" ∨ m.datumType = "datum" then
                   kupoInlineDatum cborPD getDatum m.datumHash
                 else none) with
          | some pd => some (DatumOpt.inlineD pd)
          | none => some (DatumOpt.hashD (hexDecodePartial m.datumHash))
        else none
      let sref : Option (List Nat) :=
        if m.scriptHash ≠ "" then
          match getScript m.scriptHash with
          | Except.error _ => none
          | Except.ok none => none
          | Except.ok (some s) =>
            match hexDecode s with
            | none => none
            | some bs => some bs
        else none
      Except.ok ⟨⟨txHashBytes, m.outputIndex⟩, TxOutput.postAlonzo a val datum sref⟩

/-- Split at the first occurrence of the separator, modelling
strings.SplitN(s, ".", 2): some (before, after) when the separator occurs,
none when it does not. -/
def splitFirst (sep : Char) : List Char → Option (List Char × List Char)
  | [] => none
  | c :: rest =>
    if c = sep then some ([], rest)
    else (splitFirst sep rest).map (fun p => (c :: p.1, p.2))

/-- Embedding of parseUnit (kupmios): recognizes the "lovelace" sentinel,
splits at the first dot requiring a 56-character policy id, and otherwise
slices an undotted string of length at least 56 at offset 56.  Only the
LENGTH of the policy id is checked; hex validity is never examined. -/
def parseUnit (unitStr : String) : Except String (String × String) :=
  if unitStr = "lovelace" then Except.ok ("lovelace", "")
  else
    match splitFirst '.' unitStr.data with
    | some (p, a) =>
      if p.length ≠ 56 then Except.error "invalid policyId length in unit"
      else Except.ok (String.mk p, String.mk a)
    | none =>
      if unitStr.data.length = 56 then Except.ok (String.mk unitStr.data, "")
      else if unitStr.data.length ≥ 56 then
        Except.ok (String.mk (unitStr.data.take 56), String.mk (unitStr.data.drop 56))
      else Except.error "invalid unit format, expected policy.assetNameHex or lovelace"

deriving instance DecidableEq for Except

/-- Backend made of a fixed list of Blockfrost pages: page n (1-based) is the
n-th element, and any page past the end is empty, which is how the real
endpoint behaves once the listing is exhausted. -/
def bfBackendOfPages (pages : List (List α)) : Nat → Except PErr (List α) :=
  fun n => Except.ok ((pages.get? (n - 1)).getD [])

/-- Page-number pagination loop of GetUtxosByAddress / GetUtxosWithUnit
(blockfrost/adapter.go): fetch page, map a first-page not-found to an empty
success, stop on an empty page or a page shorter than 100, else advance.
fuel bounds the unbounded Go loop. -/
def bfPagedLoop (backend : Nat → Except PErr (List α)) :
    Nat → Nat → List α → Except PErr (List α)
  | 0, _, _ => Except.error PErr.outOfFuel
  | fuel + 1, page, acc =>
    match backend page with
    | Except.error e =>
      if page = 1 ∧ e = PErr.notFound then Except.ok [] else Except.error e
    | Except.ok items =>
      if items.length = 0 then Except.ok acc
      else
        if items.length < 100 then Except.ok (acc ++ items)
        else bfPagedLoop backend fuel (page + 1) (acc ++ items)

/-- Embedding of BlockfrostProvider.GetUtxosByAddress: run the pagination
loop from page 1 and adapt the accumulated raw UTxOs with
adaptBlockfrostAddressUTxOs. -/
def bfGetUtxosByAddress (decodeAddr : String → Option Addr)
    (cborPD : List Nat → Option PD) (getScriptCbor : String → Except PErr String)
    (backend : Nat → Except PErr (List BlockfrostUTXO)) (fuel : Nat)
    (addr : String) : Except PErr (List (GoUTxO Addr PD)) :=
  (bfPagedLoop backend fuel 1 []).map
    (adaptBlockfrostAddressUTxOs decodeAddr cborPD getScriptCbor addr)

/-- Embedding of BlockfrostProvider.GetUtxosWithUnit: identical pagination
loop, the unit only changes the request path (part of the backend). -/
def bfGetUtxosWithUnit (decodeAddr : String → Option Addr)
    (cborPD : List Nat → Option PD) (getScriptCbor : String → Except PErr String)
    (backend : Nat → Except PErr (List BlockfrostUTXO)) (fuel : Nat)
    (addr : String) (_unit : String) : Except PErr (List (GoUTxO Addr PD)) :=
  (bfPagedLoop backend fuel 1 []).map
    (adaptBlockfrostAddressUTxOs decodeAddr cborPD getScriptCbor addr)

/-- One page of a Maestro paginated response: the items plus the opaque
continuation cursor; none models the empty-string cursor that ends the
walk. -/
structure MPage (α : Type) where
  data : List α
  nextCursor : Option Nat
deriving DecidableEq, Repr

/-- Adapt a page of raw Maestro items one by one, aborting on the first
failing item, as the Go per-item loop does with return nil, err. -/
def maestroAdaptList (adapt : ρ → Except PErr β) : List ρ → Except PErr (List β)
  | [] => Except.ok []
  | r :: rest =>
    match adapt r with
    | Except.error e => Except.error e
    | Except.ok u =>
      match maestroAdaptList adapt rest with
      | Except.error e => Except.error e
      | Except.ok us => Except.ok (u :: us)

/-- Cursor-walk loop body of MaestroProvider.GetUtxosByAddress: run while the
previous page's cursor was nonempty, fetch with that cursor, adapt the items
(subsequent pages decode TxOutCbor inline), stop when the new page carries no
cursor. fuel bounds the unbounded Go loop. -/
def maestroCursorLoop (fetch : Option Nat → Except PErr (MPage ρ))
    (adapt2 : ρ → Except PErr β) : Nat → Nat → List β → Except PErr (List β)
  | 0, _, _ => Except.error PErr.outOfFuel
  | fuel + 1, cursor, acc =>
    match fetch (some cursor) with
    | Except.error e => Except.error e
    | Except.ok page =>
      match maestroAdaptList adapt2 page.data with
      | Except.error e => Except.error e
      | Except.ok us =>
        match page.nextCursor with
        | none => Except.ok (acc ++ us)
        | some c => maestroCursorLoop fetch adapt2 fuel c (acc ++ us)

/-- Embedding of MaestroProvider.GetUtxosByAddress: first fetch without a
cursor (its items adapted with adaptMaestroUtxoToApolloUtxo, passed in as
adapt1), then cursor-walk; note every fetch error — including a first-page
not-found — is returned to the caller as an error. -/
def maestroGetUtxosByAddress (fetch : Option Nat → Except PErr (MPage ρ))
    (adapt1 adapt2 : ρ → Except PErr β) (fuel : Nat) : Except PErr (List β) :=
  match fetch none with
  | Except.error e => Except.error e
  | Except.ok page =>
    match maestroAdaptList adapt1 page.data with
    | Except.error e => Except.error e
    | Except.ok us =>
      match page.nextCursor with
      | none => Except.ok us
      | some c => maestroCursorLoop fetch adapt2 fuel c us

/-- Backend made of a fixed chain of Maestro pages: the initial (no-cursor)
fetch returns page 0, cursor i returns page i, and each page points at the
next one, the last carrying no cursor. -/
def maestroChainFetch (pages : List (List ρ)) : Option Nat → Except PErr (MPage ρ) :=
  fun cursor =>
    let i := match cursor with | none => 0 | some c => c
    Except.ok ⟨(pages.get? i).getD [],
      if i + 1 < pages.length then some (i + 1) else none⟩

/-- Subsequent-page item conversion inside MaestroProvider.GetUtxosByAddress:
the tx-hash and TxOutCbor hex decode errors are discarded with the blank
identifier, so the code keeps whatever byte slice hex.DecodeString produced
— on malformed hex, the bytes decoded before the error; only the CBOR
unmarshal of the output can fail. -/
def maestroPageItemAdapt (cborOut : List Nat → Except PErr (TxOutput Addr PD))
    (txHash : String) (txOutCbor : String) (ix : Nat) : Except PErr (GoUTxO Addr PD) :=
  let decodedHash := hexDecodePartial txHash
  let decodedCbor := hexDecodePartial txOutCbor
  match cborOut decodedCbor with
  | Except.error e => Except.error e
  | Except.ok o => Except.ok ⟨⟨decodedHash, ix⟩, o⟩

/-- An output reference as requested by the caller (connector.OutRef). -/
structure OutRef where
  txHash : String
  index : Nat
deriving DecidableEq, Repr

/-- The full output set of one transaction as Blockfrost returns it
(Base.TxUtxos; only the outputs are read). -/
structure TxUtxos where
  outputs : List BlockfrostUTXO
deriving DecidableEq, Repr

/-- Association-list lookup, modelling a Go map read. -/
def alookup : List (String × β) → String → Option β
  | [], _ => none
  | (k, v) :: rest, key => if k = key then some v else alookup rest key

/-- Fan-in of BlockfrostProvider.GetUtxosByOutRef: collect the per-hash fetch
results into a map; a not-found for one hash is skipped, any other error
aborts the whole call.  The concurrent goroutine fan-out joins into a map
whose contents do not depend on arrival order, so this sequential fold over
the distinct hashes is the determinization of that join. -/
def bfBuildTxMap (fetchTx : String → Except PErr TxUtxos) :
    List String → Except PErr (List (String × TxUtxos))
  | [] => Except.ok []
  | h :: rest =>
    match fetchTx h with
    | Except.error e =>
      if e = PErr.notFound then bfBuildTxMap fetchTx rest else Except.error e
    | Except.ok tx =>
      match bfBuildTxMap fetchTx rest with
      | Except.error e => Except.error e
      | Except.ok m => Except.ok ((h, tx) :: m)

/-- Selection phase of BlockfrostProvider.GetUtxosByOutRef: for each
requested reference in request order, look its transaction up in the fetched
map (absence means the fetch was not-found and the reference contributes
nothing), take the first output with the matching index, adapt it (an
adaptation error aborts the whole call). -/
def bfSelectOutputs (adapt : String → BlockfrostUTXO → Except PErr β)
    (m : List (String × TxUtxos)) : List OutRef → Except PErr (List β)
  | [] => Except.ok []
  | ref :: rest =>
    match alookup m ref.txHash with
    | none => bfSelectOutputs adapt m rest
    | some tx =>
      match tx.outputs.find? (fun o => o.outputIndex = ref.index) with
      | none => bfSelectOutputs adapt m rest
      | some o =>
        match adapt ref.txHash o with
        | Except.error e => Except.error e
        | Except.ok u =>
          match bfSelectOutputs adapt m rest with
          | Except.error e => Except.error e
          | Except.ok us => Except.ok (u :: us)

/-- Embedding of BlockfrostProvider.GetUtxosByOutRef: dedupe the requested
hashes, fetch each distinct transaction's outputs (concurrently in Go,
fan-in determinized here), then select the requested indices. -/
def bfGetUtxosByOutRef (fetchTx : String → Except PErr TxUtxos)
    (adapt : String → BlockfrostUTXO → Except PErr β)
    (outRefs : List OutRef) : Except PErr (List β) :=
  if outRefs.isEmpty then Except.ok []
  else
    match bfBuildTxMap fetchTx ((outRefs.map (fun r => r.txHash)).dedup) with
    | Except.error e => Except.error e
    | Except.ok m => bfSelectOutputs adapt m outRefs

/-- Specification-side resolution of one reference: the value the call should
contain for it, none when its transaction is not found or it has no output
with the requested index. -/
def bfResolveRef (fetchTx : String → Except PErr TxUtxos)
    (f : String → BlockfrostUTXO → β) (ref : OutRef) : Option β :=
  match fetchTx ref.txHash with
  | Except.error _ => none
  | Except.ok tx =>
    (tx.outputs.find? (fun o => o.outputIndex = ref.index)).map (f ref.txHash)

/-- Embedding of MaestroProvider.GetUtxosByOutRef: one sequential
TransactionOutputFromReference fetch per requested reference; EVERY fetch
error — not-found included — aborts the whole call, and so does every
adaptation error. -/
def maestroGetUtxosByOutRef (fetchRef : OutRef → Except PErr ρ)
    (adapt : ρ → Except PErr β) : List OutRef → Except PErr (List β)
  | [] => Except.ok []
  | ref :: rest =>
    match fetchRef ref with
    | Except.error e => Except.error e
    | Except.ok raw =>
      match adapt raw with
      | Except.error e => Except.error e
      | Except.ok u =>
        match maestroGetUtxosByOutRef fetchRef adapt rest with
        | Except.error e => Except.error e
        | Except.ok us => Except.ok (u :: us)

/-- Holder record returned by the asset-addresses endpoints. -/
structure BfHolder where
  address : String
  quantity : String
deriving DecidableEq, Repr

/-- Number of candidate holders requested by
BlockfrostProvider.GetUtxoByUnit: the query is /assets/{unit}/addresses?count=2. -/
def bfHolderQueryCount : Nat := 2

/-- Number of candidate holders requested by MaestroProvider.GetUtxoByUnit:
params.Count(2). -/
def maestroHolderQueryCount : Nat := 2

/-- Embedding of BlockfrostProvider.GetUtxoByUnit: resolve up to two holder
addresses; zero holders is not-found, more than one is an ambiguity error;
with exactly one holder fetch its UTxOs filtered by the unit, where zero is
not-found and more than one is again the ambiguity error. -/
def bfGetUtxoByUnit (fetchHolders : String → Nat → Except PErr (List BfHolder))
    (getUtxosWithUnit : String → String → Except PErr (List β))
    (unit : String) : Except PErr β :=
  match fetchHolders unit bfHolderQueryCount with
  | Except.error e => Except.error e
  | Except.ok [] => Except.error PErr.notFound
  | Except.ok [h] =>
    match getUtxosWithUnit h.address unit with
    | Except.error e => Except.error e
    | Except.ok [] => Except.error PErr.notFound
    | Except.ok [u] => Except.ok u
    | Except.ok (_ :: _ :: _) =>
      Except.error (PErr.msg "unit needs to be an NFT or only held by one address")
  | Except.ok (_ :: _ :: _) =>
    Except.error (PErr.msg "unit needs to be an NFT or only held by one address")

/-- Embedding of MaestroProvider.GetUtxoByUnit: same shape as the Blockfrost
operation with Maestro's error messages. -/
def maestroGetUtxoByUnit (fetchHolders : String → Nat → Except PErr (List BfHolder))
    (getUtxosWithUnit : String → String → Except PErr (List β))
    (unit : String) : Except PErr β :=
  match fetchHolders unit maestroHolderQueryCount with
  | Except.error e => Except.error e
  | Except.ok [] => Except.error PErr.notFound
  | Except.ok [h] =>
    match getUtxosWithUnit h.address unit with
    | Except.error e => Except.error e
    | Except.ok [] => Except.error PErr.notFound
    | Except.ok [u] => Except.ok u
    | Except.ok (_ :: _ :: _) =>
      Except.error (PErr.msg "unit is present in multiple UTxOs at the same address")
  | Except.ok (_ :: _ :: _) =>
    Except.error (PErr.msg "unit is held by more than one address, cannot determine unique UTxO")

/-- One iteration of a polling loop as observed at its select statement: the
caller's context is found cancelled, or the ticker fired and the backend
produced the response r. -/
inductive Tick (ρ : Type) where
  | cancel : Tick ρ
  | resp (r : ρ) : Tick ρ
deriving DecidableEq, Repr

/-- Outcome of running a confirmation poller over a finite trace of tick
events. waiting means the trace ended with the poller still polling. -/
inductive AwaitResult where
  | confirmed : AwaitResult
  | cancelled : AwaitResult
  | failed (e : PErr) : AwaitResult
  | waiting : AwaitResult
deriving DecidableEq, Repr

/-- Embedding of MaestroProvider.AwaitTx: each tick checks ctx.Done first,
then queries TransactionCbor; an error whose message contains "404"
(modelled as PErr.notFound) keeps waiting, any other error fails the call,
and a successful response is a confirmation. -/
def maestroAwaitTx : List (Tick (Except PErr Unit)) → AwaitResult
  | [] => AwaitResult.waiting
  | Tick.cancel :: _ => AwaitResult.cancelled
  | Tick.resp (Except.error e) :: rest =>
    if e = PErr.notFound then maestroAwaitTx rest else AwaitResult.failed e
  | Tick.resp (Except.ok _) :: _ => AwaitResult.confirmed

/-- A Kupo match as inspected by the kupmios poller: only CreatedAt.SlotNo
is read. -/
structure KupoSlotMatch where
  createdAtSlot : Nat
deriving DecidableEq, Repr

/-- Embedding of KupmiosProvider.AwaitTx's loop: each tick checks ctx.Done
first, then queries Kupo matches for the transaction; EVERY request error
keeps waiting (continue), and confirmation requires a nonempty match list
whose first element has a positive creation slot. -/
def kupmiosAwaitTx : List (Tick (Except PErr (List KupoSlotMatch))) → AwaitResult
  | [] => AwaitResult.waiting
  | Tick.cancel :: _ => AwaitResult.cancelled
  | Tick.resp (Except.error _) :: rest => kupmiosAwaitTx rest
  | Tick.resp (Except.ok ms) :: rest =>
    match ms with
    | [] => kupmiosAwaitTx rest
    | m :: _ => if m.createdAtSlot > 0 then AwaitResult.confirmed else kupmiosAwaitTx rest

/-- Leading-segment test on char lists, modelling strings.HasPrefix. -/
def goStartsWithCs : List Char → List Char → Bool
  | _, [] => true
  | [], _ :: _ => false
  | c :: cs, p :: ps => if c = p then goStartsWithCs cs ps else false

/-- Model of Go's strings.HasPrefix on strings. -/
def goStartsWith (s p : String) : Bool := goStartsWithCs s.data p.data

/-- Delegation record of the canonical model (connector.Delegation). -/
structure Delegation where
  active : Bool
  rewards : Nat
  poolId : String
  epoch : Int
deriving DecidableEq, Repr

/-- Blockfrost account details as read by GetDelegation. -/
structure BfAccount where
  active : Bool
  withdrawableAmount : String
  poolId : Option String
deriving DecidableEq, Repr

/-- Embedding of adaptBlockfrostAccountToDelegation: rewards parse failures
fall back to zero, the delegation is active when a pool id is present and
the account is active. -/
def adaptBlockfrostAccountToDelegation (acc : BfAccount) : Delegation :=
  let rewards := if acc.withdrawableAmount ≠ "" then
    (parseUintGo acc.withdrawableAmount 64).getD 0 else 0
  let poolID := acc.poolId.getD ""
  { active := poolID ≠ "" && acc.active, rewards := rewards, poolId := poolID, epoch := 0 }

/-- Embedding of BlockfrostProvider.GetDelegation: validate the stake
address shape before any backend call, translate a backend not-found into a
successful non-delegated zero-reward record. -/
def bfGetDelegation (fetchAccount : String → Except PErr BfAccount)
    (stakeAddrStr : String) : Except PErr Delegation :=
  if ¬ goStartsWith stakeAddrStr "stake" then Except.error PErr.invalidAddress
  else
    match fetchAccount stakeAddrStr with
    | Except.error e =>
      if e = PErr.notFound then Except.ok ⟨false, 0, "", 0⟩ else Except.error e
    | Except.ok acc => Except.ok (adaptBlockfrostAccountToDelegation acc)

/-- Embedding of MaestroProvider.GetDelegation: validate the stake address
shape, then fetch the account and the epoch of its last-updated block;
EVERY backend error — an account-not-found included — is propagated to the
caller.  adaptDeleg stands for adaptMaestroDelegation, whose source is not
under src/. -/
def maestroGetDelegation (fetchAccount : String → Except PErr σ)
    (fetchBlockEpoch : σ → Except PErr Int) (adaptDeleg : σ → Int → Delegation)
    (stakeAddrStr : String) : Except PErr Delegation :=
  if ¬ goStartsWith stakeAddrStr "stake" then Except.error PErr.invalidAddress
  else
    match fetchAccount stakeAddrStr with
    | Except.error e => Except.error e
    | Except.ok acc =>
      match fetchBlockEpoch acc with
      | Except.error e => Except.error e
      | Except.ok epoch => Except.ok (adaptDeleg acc epoch)

/-- Canonical redeemer tags of apollo's Redeemer package as used by the
Blockfrost normalizer. -/
inductive RTag where
  | spend : RTag
  | mint : RTag
  | cert : RTag
  | reward : RTag
deriving DecidableEq, Repr

/-- Execution units of one redeemer. -/
structure ExUnits where
  mem : Int
  steps : Int
deriving DecidableEq, Repr

/-- A canonical evaluation redeemer (connector.EvalRedeemer). -/
structure EvalRedeemer where
  tag : RTag
  index : Nat
  exUnits : ExUnits
deriving DecidableEq, Repr

/-- Split on every occurrence of the separator, modelling strings.Split
(which on a separator-free string yields that one string). -/
def splitAll (sep : Char) : List Char → List (List Char)
  | [] => [[]]
  | c :: rest =>
    let r := splitAll sep rest
    if c = sep then [] :: r
    else (c :: r.headD []) :: r.tail

/-- ASCII lower-casing, modelling strings.ToLower on the ASCII purpose
vocabulary the normalizers receive. -/
def goToLower (cs : List Char) : List Char :=
  cs.map (fun c => if 'A' ≤ c ∧ c ≤ 'Z' then Char.ofNat (c.toNat + 32) else c)

/-- Purpose-spelling switch of adaptBlockfrostEvalResult: lower-cased
backend spellings map onto apollo tags, with both withdraw and reward
collapsing to the reward tag; anything else is none (the entry is dropped). -/
def bfCanonTag (s : String) : Option RTag :=
  if s = "spend" then some RTag.spend
  else if s = "mint" then some RTag.mint
  else if s = "cert" then some RTag.cert
  else if s = "reward" then some RTag.reward
  else if s = "withdraw" then some RTag.reward
  else none

/-- Embedding of adaptBlockfrostEvalResult (blockfrost/adapter.go): each map
entry is a "tag:index" key with execution units; keys that do not split into
exactly two parts, indices that fail ParseUint(·,10,32), and unrecognized
tags are silently dropped.  The input list carries the map entries in
iteration order. -/
def adaptBlockfrostEvalResult (entries : List (String × Int × Int)) : List EvalRedeemer :=
  entries.foldl (fun acc e =>
    match splitAll ':' e.1.data with
    | [tagCs, indexCs] =>
      match parseUintGo (String.mk indexCs) 32 with
      | none => acc
      | some index =>
        match bfCanonTag (String.mk (goToLower tagCs)) with
        | none => acc
        | some tag => acc ++ [⟨tag, index, ⟨e.2.1, e.2.2⟩⟩]
    | _ => acc) []

/-- One execution-unit entry of an Ogmios evaluation response. -/
structure OgmigoExUnit where
  purpose : String
  index : Nat
  memory : Int
  cpu : Int
deriving DecidableEq, Repr

/-- An Ogmios evaluation response: an optional error (code, message) and the
per-validator execution units. -/
structure OgmigoEvalResponse where
  err : Option (Int × String)
  exUnits : List OgmigoExUnit
deriving DecidableEq, Repr

/-- Purpose-spelling switch of adaptOgmigoEvalResult: spend and mint pass
through, certificate/cert collapse to certificate, withdrawal/reward
collapse to withdrawal; anything else is dropped. -/
def ogmigoCanonPurpose (s : String) : Option String :=
  if s = "spend" ∨ s = "mint" then some s
  else if s = "certificate" ∨ s = "cert" then some "certificate"
  else if s = "withdrawal" ∨ s = "reward" then some "withdrawal"
  else none

/-- Insert-with-overwrite into a string-keyed result map. -/
def sinsert : List (String × ExUnits) → String → ExUnits → List (String × ExUnits)
  | [], k, v => [(k, v)]
  | (k1, v1) :: rest, k, v =>
    if k1 = k then (k, v) :: rest else (k1, v1) :: sinsert rest k v

/-- Embedding of adaptOgmigoEvalResult (kupmios): an Ogmios-reported error or
an empty execution-unit list fail the call; otherwise each entry is keyed by
"purpose:index" with its canonicalized purpose, unrecognized purposes being
dropped without failing. -/
def adaptOgmigoEvalResult (r : OgmigoEvalResponse) : Except PErr (List (String × ExUnits)) :=
  match r.err with
  | some ec => Except.error (PErr.msg ("ogmios evaluation error (code " ++ toString ec.1 ++ "): " ++ ec.2))
  | none =>
    if r.exUnits.length = 0 then
      Except.error (PErr.msg "ogmios evaluation error: No execution units returned")
    else
      Except.ok (r.exUnits.foldl (fun acc e =>
        match ogmigoCanonPurpose (String.mk (goToLower e.purpose.data)) with
        | none => acc
        | some p => sinsert acc (p ++ ":" ++ toString e.index) ⟨e.memory, e.cpu⟩) [])

/-- One redeemer of a utxorpc evaluation report: the protobuf enum name of
its purpose, its index and its execution units. -/
structure URedeemer where
  purpose : String
  index : Nat
  memory : Int
  steps : Int
deriving DecidableEq, Repr

/-- Purpose-spelling switch of UtxorpcProvider.EvaluateTx: the protobuf enum
names map onto the string vocabulary; an unrecognized name has no canonical
form. -/
def urpcCanonPurpose (s : String) : Option String :=
  if s = "REDEEMER_PURPOSE_SPEND" then some "spend"
  else if s = "REDEEMER_PURPOSE_MINT" then some "mint"
  else if s = "REDEEMER_PURPOSE_CERT" then some "certificate"
  else if s = "REDEEMER_PURPOSE_REWARD" then some "withdrawal"
  else if s = "REDEEMER_PURPOSE_VOTE" then some "vote"
  else if s = "REDEEMER_PURPOSE_PROPOSE" then some "proposal"
  else none

/-- Redeemer normalization loop of UtxorpcProvider.EvaluateTx: unlike the
other two normalizers, an unrecognized purpose string makes the whole call
return the error "unknown purpose". -/
def urpcAdaptRedeemersAux (acc : List (String × ExUnits)) :
    List URedeemer → Except PErr (List (String × ExUnits))
  | [] => Except.ok acc
  | r :: rest =>
    match urpcCanonPurpose r.purpose with
    | none => Except.error (PErr.msg "unknown purpose")
    | some p =>
      urpcAdaptRedeemersAux (sinsert acc (p ++ ":" ++ toString r.index) ⟨r.memory, r.steps⟩) rest

/-- Redeemer normalization of UtxorpcProvider.EvaluateTx, starting from the
empty result map. -/
def urpcAdaptRedeemers (rs : List URedeemer) : Except PErr (List (String × ExUnits)) :=
  urpcAdaptRedeemersAux [] rs

/-- Embedding of UtxorpcProvider.EvaluateTx: a non-empty additional-UTxO
list is rejected up front, before the EvalTx RPC is issued; the second
component counts the backend calls made. -/
def urpcEvaluateTx (callEval : Unit → Except PErr (List URedeemer))
    (_tx : List Nat) (additionalUTxOs : List α) :
    Except PErr (List (String × ExUnits)) × Nat :=
  if additionalUTxOs.length > 0 then
    (Except.error (PErr.msg "utxorpc: EvaluateTx does not support additional UTxOs"), 0)
  else
    match callEval () with
    | Except.error e => (Except.error e, 1)
    | Except.ok rs => (urpcAdaptRedeemers rs, 1)

/-- Trivial address decoder used to instantiate the external apollo decoder
on concrete examples. -/
def unitDec : String → Option Unit := fun _ => some ()

/-- Trivial plutus-data CBOR decoder used to instantiate the external codec
on concrete examples. -/
def unitCbor : List Nat → Option Unit := fun _ => some ()

/-- Script side-lookup that always resolves, for concrete examples. -/
def okScript : String → Except PErr String := fun _ => Except.ok "ab"

/-- A raw Blockfrost output carrying a datum hash and an inline datum and no
reference script. -/
def exOutBoth : BlockfrostUTXO := ⟨"addr", "ab", 0, [], "cd", "ef", ""⟩

/-- The canonical UTxO that adaptBlockfrostTxOutputToApolloUTxO builds from
exOutBoth under the trivial collaborators: post-Alonzo, with the inline
datum having overwritten the datum hash. -/
def exUtxoBoth : GoUTxO Unit Unit :=
  ⟨⟨[171], 0⟩, TxOutput.postAlonzo () (mkGoValue 0 []) (some (DatumOpt.inlineD ())) none⟩

/-- A Kupo match with no datum hash, no datum type and no script hash
— the combination the era decision rule maps to pre-Alonzo. -/
def exKupoBare : KupoMatch := ⟨"ab", 0, [("ada", [("lovelace", 5)])], "", "", "", "addr"⟩

/-- Kupo datum fetch that always fails, for concrete examples. -/
def noDatum : String → Except PErr String := fun _ => Except.error PErr.notFound

/-- Kupo script fetch that returns no script, for concrete examples. -/
def noKupoScript : String → Except PErr (Option String) := fun _ => Except.ok none

/-- A raw Blockfrost UTxO whose tx hash is not valid hex. -/
def exBadHashUtxo : BlockfrostUTXO := ⟨"addr", "zz", 0, [("lovelace", "5")], "", "", ""⟩

/-- Transaction fetch that always resolves to one output with index 0, for
concrete examples. -/
def exFetchTx : String → Except PErr TxUtxos :=
  fun _ => Except.ok ⟨[⟨"addr", "ab", 0, [], "", "", ""⟩]⟩

/-- Selection function pairing a fetched output with its index, for concrete
examples. -/
def exSelFun : String → BlockfrostUTXO → Nat := fun _ o => o.outputIndex

/-- Output-CBOR decoder that always succeeds with a fixed pre-Alonzo output,
for concrete examples. -/
def exCborOut : List Nat → Except PErr (TxOutput Unit Unit) :=
  fun _ => Except.ok (TxOutput.preAlonzo () (mkGoValue 0 []))

/-
THEOREMS.  One theorem per claim of the specification, preceded by helper
lemmas where a claim needs an induction.
-/

/-- Claim C10: for every transaction and every non-empty list of additional
UTxOs, the utxorpc adapter's EvaluateTx returns an error without issuing any
backend call, and an evaluation result can only be produced when the
additional-UTxO list is empty. -/
theorem urpc_evaluateTx_rejects_additional :
    (∀ (α : Type) (callEval : Unit → Except PErr (List URedeemer)) (tx : List Nat)
        (us : List α), us ≠ [] →
      urpcEvaluateTx callEval tx us =
        (Except.error (PErr.msg "utxorpc: EvaluateTx does not support additional UTxOs"), 0)) ∧
    (∀ (α : Type) (callEval : Unit → Except PErr (List URedeemer)) (tx : List Nat)
        (us : List α) (r : List (String × ExUnits)),
      (urpcEvaluateTx callEval tx us).1 = Except.ok r → us = []) := by
  constructor
  · intro α call tx us hne
    have hlen : us.length > 0 := List.length_pos.mpr hne
    simp [urpcEvaluateTx, hlen]
  · intro α call tx us r h
    by_cases hus : us = []
    · exact hus
    · exfalso
      have hlen : us.length > 0 := List.length_pos.mpr hus
      simp [urpcEvaluateTx, hlen] at h

/-- Claim C10, witness: the guard fires on a concrete singleton list. -/
theorem urpc_evaluateTx_rejects_additional_witness :
    urpcEvaluateTx (fun _ => Except.ok []) [] [()] =
      (Except.error (PErr.msg "utxorpc: EvaluateTx does not support additional UTxOs"), 0) :=
  urpc_evaluateTx_rejects_additional.1 Unit (fun _ => Except.ok []) [] [()] (by decide)

/-- Claim C6 (amended): the Blockfrost and Ogmios evaluation-result
normalizers collapse the distinct purpose spellings onto one canonical tag
keyed by (purpose, index) and drop an unrecognized purpose without failing;
the utxorpc normalizer also collapses the protobuf spellings, but an
unrecognized purpose there fails the whole normalization with "unknown
purpose" instead of being dropped. -/
theorem eval_purpose_canonicalization :
    (∀ m s : Int,
      adaptBlockfrostEvalResult [("withdraw:0", m, s)] = [⟨RTag.reward, 0, ⟨m, s⟩⟩] ∧
      adaptBlockfrostEvalResult [("reward:0", m, s)] = [⟨RTag.reward, 0, ⟨m, s⟩⟩] ∧
      adaptBlockfrostEvalResult [("WITHDRAW:0", m, s)] = [⟨RTag.reward, 0, ⟨m, s⟩⟩]) ∧
    (adaptBlockfrostEvalResult [("vote:0", 7, 9)] = []) ∧
    (∀ m c : Int,
      adaptOgmigoEvalResult ⟨none, [⟨"reward", 0, m, c⟩]⟩ =
        Except.ok [("withdrawal:0", ⟨m, c⟩)] ∧
      adaptOgmigoEvalResult ⟨none, [⟨"withdrawal", 0, m, c⟩]⟩ =
        Except.ok [("withdrawal:0", ⟨m, c⟩)]) ∧
    (adaptOgmigoEvalResult ⟨none, [⟨"vote", 0, 7, 9⟩]⟩ = Except.ok []) ∧
    (∀ m s : Int,
      urpcAdaptRedeemers [⟨"REDEEMER_PURPOSE_REWARD", 0, m, s⟩] =
        Except.ok [("withdrawal:0", ⟨m, s⟩)]) ∧
    (∀ (r : URedeemer) (rest : List URedeemer), urpcCanonPurpose r.purpose = none →
      urpcAdaptRedeemers (r :: rest) = Except.error (PErr.msg "unknown purpose")) := by
  refine ⟨?_, ?_, ?_, ?_, ?_, ?_⟩
  · intro m s
    refine ⟨?_, ?_, ?_⟩ <;> rfl
  · decide
  · intro m c
    constructor
    · simp [adaptOgmigoEvalResult, ogmigoCanonPurpose, goToLower, sinsert]
      rfl
    · simp [adaptOgmigoEvalResult, ogmigoCanonPurpose, goToLower, sinsert]
      rfl
  · decide
  · intro m s
    simp [urpcAdaptRedeemers, urpcAdaptRedeemersAux, urpcCanonPurpose, sinsert]
    rfl
  · intro r rest h
    simp [urpcAdaptRedeemers, urpcAdaptRedeemersAux, h]

/-- Claim C6, witness: the utxorpc abort clause fires on a concrete
unrecognized purpose. -/
theorem eval_purpose_canonicalization_witness :
    urpcAdaptRedeemers [⟨"REDEEMER_PURPOSE_UNSPECIFIED", 0, 7, 9⟩] =
      Except.error (PErr.msg "unknown purpose") :=
  eval_purpose_canonicalization.2.2.2.2.2 ⟨"REDEEMER_PURPOSE_UNSPECIFIED", 0, 7, 9⟩ []
    (by decide)

/-- Claim C6, counterexample to the claim as stated: "a redeemer whose
purpose string is not recognized is dropped rather than causing the whole
EvaluateTx call to fail ... for every adapter" is false for the utxorpc
normalizer, which fails the whole call on the first unrecognized purpose
even when a recognized redeemer is also present. -/
theorem eval_unknown_purpose_fatal_on_utxorpc :
    urpcAdaptRedeemers
        [⟨"REDEEMER_PURPOSE_SPEND", 0, 1, 2⟩, ⟨"REDEEMER_PURPOSE_UNSPECIFIED", 1, 7, 9⟩] =
      Except.error (PErr.msg "unknown purpose") := by
  decide

/-- Claim C5 (amended): the Maestro confirmation poller follows the claimed
state machine — a cancellation tick ends the call with the context error, a
not-found response keeps it waiting, any other backend error fails it, and a
found response confirms it.  The kupmios poller handles cancellation and
not-found the same way, but treats EVERY backend error as "keep waiting"
instead of failing. -/
theorem awaitTx_state_machine :
    (∀ rest, maestroAwaitTx (Tick.cancel :: rest) = AwaitResult.cancelled) ∧
    (∀ rest, maestroAwaitTx (Tick.resp (Except.error PErr.notFound) :: rest) =
      maestroAwaitTx rest) ∧
    (∀ rest e, e ≠ PErr.notFound →
      maestroAwaitTx (Tick.resp (Except.error e) :: rest) = AwaitResult.failed e) ∧
    (∀ rest, maestroAwaitTx (Tick.resp (Except.ok ()) :: rest) = AwaitResult.confirmed) ∧
    (∀ rest, kupmiosAwaitTx (Tick.cancel :: rest) = AwaitResult.cancelled) ∧
    (∀ rest e, kupmiosAwaitTx (Tick.resp (Except.error e) :: rest) = kupmiosAwaitTx rest) := by
  refine ⟨fun rest => rfl, fun rest => by simp [maestroAwaitTx], ?_, fun rest => rfl,
    fun rest => rfl, fun rest e => rfl⟩
  intro rest e he
  simp [maestroAwaitTx, he]

/-- Claim C5, witness: a non-404 backend error fails the Maestro poller on a
concrete trace. -/
theorem awaitTx_state_machine_witness :
    maestroAwaitTx [Tick.resp (Except.error (PErr.msg "boom"))] =
      AwaitResult.failed (PErr.msg "boom") :=
  awaitTx_state_machine.2.2.1 [] (PErr.msg "boom") (by decide)

/-- Claim C5, counterexample to the claim as stated: on the kupmios adapter a
backend error other than not-found does NOT return an error — the poller
swallows it and keeps waiting, so a trace consisting of one such error ends
still waiting rather than failed. -/
theorem awaitTx_error_swallowed_on_kupmios :
    kupmiosAwaitTx [Tick.resp (Except.error (PErr.msg "connection refused"))] =
      AwaitResult.waiting := by
  decide

/-- Claim C9 (amended): Blockfrost's GetDelegation rejects a non-stake
address without consulting the backend (the result is the same for every
backend), and translates a backend account-not-found into a successful
non-delegated zero-reward record; Maestro's GetDelegation performs the same
address validation but propagates EVERY backend error — an account-not-found
included — to the caller instead of translating it. -/
theorem getDelegation_validation_and_not_found :
    (∀ (f g : String → Except PErr BfAccount) (addr : String),
      goStartsWith addr "stake" = false →
      bfGetDelegation f addr = Except.error PErr.invalidAddress ∧
      bfGetDelegation f addr = bfGetDelegation g addr) ∧
    (∀ (f : String → Except PErr BfAccount) (addr : String),
      f addr = Except.error PErr.notFound →
      goStartsWith addr "stake" = true →
      bfGetDelegation f addr = Except.ok ⟨false, 0, "", 0⟩) ∧
    (∀ (σ : Type) (fa : String → Except PErr σ) (fb : σ → Except PErr Int)
        (ad : σ → Int → Delegation) (addr : String) (e : PErr),
      goStartsWith addr "stake" = true →
      fa addr = Except.error e →
      maestroGetDelegation fa fb ad addr = Except.error e) := by
  refine ⟨?_, ?_, ?_⟩
  · intro f g addr h
    constructor <;> simp [bfGetDelegation, h]
  · intro f addr hf h
    simp [bfGetDelegation, h, hf]
  · intro σ fa fb ad addr e h hf
    simp [maestroGetDelegation, h, hf]

/-- Claim C9, witness: blockfrost translates a concrete account-not-found to
the inactive zero delegation. -/
theorem getDelegation_validation_witness :
    bfGetDelegation (fun _ => Except.error PErr.notFound) "stake1abc" =
      Except.ok ⟨false, 0, "", 0⟩ :=
  getDelegation_validation_and_not_found.2.1 (fun _ => Except.error PErr.notFound)
    "stake1abc" rfl (by decide)

/-- Claim C9, counterexample to the claim as stated: on the Maestro adapter a
backend "account does not exist" is returned as an error, not as a
successful inactive delegation. -/
theorem getDelegation_not_found_errors_on_maestro :
    maestroGetDelegation (fun _ => Except.error PErr.notFound)
        (fun (_ : Unit) => Except.ok 0) (fun _ _ => ⟨false, 0, "", 0⟩) "stake1abc" =
      Except.error PErr.notFound := by
  decide

/-- Claim C4: both GetUtxoByUnit implementations request 2 candidate holders
(enough to detect the multi-holder case), return a not-found error when zero
holders exist, return an ambiguity error — never a UTxO — when the unit is
held at more than one address, and return an ambiguity error when more than
one UTxO at the single holding address carries the unit. -/
theorem getUtxoByUnit_cardinality :
    (2 ≤ bfHolderQueryCount ∧ 2 ≤ maestroHolderQueryCount) ∧
    (∀ (β : Type) (fh : String → Nat → Except PErr (List BfHolder))
        (gu : String → String → Except PErr (List β)) (unit : String),
      fh unit bfHolderQueryCount = Except.ok [] →
      bfGetUtxoByUnit fh gu unit = Except.error PErr.notFound) ∧
    (∀ (β : Type) (fh : String → Nat → Except PErr (List BfHolder))
        (gu : String → String → Except PErr (List β)) (unit : String)
        (h1 h2 : BfHolder) (hs : List BfHolder),
      fh unit bfHolderQueryCount = Except.ok (h1 :: h2 :: hs) →
      bfGetUtxoByUnit fh gu unit =
        Except.error (PErr.msg "unit needs to be an NFT or only held by one address")) ∧
    (∀ (β : Type) (fh : String → Nat → Except PErr (List BfHolder))
        (gu : String → String → Except PErr (List β)) (unit : String)
        (h : BfHolder) (u1 u2 : β) (us : List β),
      fh unit bfHolderQueryCount = Except.ok [h] →
      gu h.address unit = Except.ok (u1 :: u2 :: us) →
      bfGetUtxoByUnit fh gu unit =
        Except.error (PErr.msg "unit needs to be an NFT or only held by one address")) ∧
    (∀ (β : Type) (fh : String → Nat → Except PErr (List BfHolder))
        (gu : String → String → Except PErr (List β)) (unit : String),
      fh unit maestroHolderQueryCount = Except.ok [] →
      maestroGetUtxoByUnit fh gu unit = Except.error PErr.notFound) ∧
    (∀ (β : Type) (fh : String → Nat → Except PErr (List BfHolder))
        (gu : String → String → Except PErr (List β)) (unit : String)
        (h1 h2 : BfHolder) (hs : List BfHolder),
      fh unit maestroHolderQueryCount = Except.ok (h1 :: h2 :: hs) →
      maestroGetUtxoByUnit fh gu unit =
        Except.error
          (PErr.msg "unit is held by more than one address, cannot determine unique UTxO")) ∧
    (∀ (β : Type) (fh : String → Nat → Except PErr (List BfHolder))
        (gu : String → String → Except PErr (List β)) (unit : String)
        (h : BfHolder) (u1 u2 : β) (us : List β),
      fh unit maestroHolderQueryCount = Except.ok [h] →
      gu h.address unit = Except.ok (u1 :: u2 :: us) →
      maestroGetUtxoByUnit fh gu unit =
        Except.error (PErr.msg "unit is present in multiple UTxOs at the same address")) := by
  refine ⟨⟨by decide, by decide⟩, ?_, ?_, ?_, ?_, ?_, ?_⟩
  · intro β fh gu unit h
    simp [bfGetUtxoByUnit, h]
  · intro β fh gu unit h1 h2 hs h
    simp [bfGetUtxoByUnit, h]
  · intro β fh gu unit h u1 u2 us hh hu
    simp [bfGetUtxoByUnit, hh, hu]
  · intro β fh gu unit h
    simp [maestroGetUtxoByUnit, h]
  · intro β fh gu unit h1 h2 hs h
    simp [maestroGetUtxoByUnit, h]
  · intro β fh gu unit h u1 u2 us hh hu
    simp [maestroGetUtxoByUnit, hh, hu]

/-- Claim C4, witness: the zero-holder and two-holder cases on concrete
backends. -/
theorem getUtxoByUnit_cardinality_witness :
    bfGetUtxoByUnit (fun _ _ => Except.ok [])
        (fun _ _ => Except.ok ([] : List Unit)) "u" = Except.error PErr.notFound :=
  getUtxoByUnit_cardinality.2.1 Unit (fun _ _ => Except.ok [])
    (fun _ _ => Except.ok []) "u" rfl

/-- splitFirst finds nothing in a separator-free list. -/
theorem splitFirst_not_mem (sep : Char) :
    ∀ cs : List Char, sep ∉ cs → splitFirst sep cs = none := by
  intro cs
  induction cs with
  | nil => intro _; rfl
  | cons c rest ih =>
    intro h
    have hc : ¬ c = sep := fun hcs => h (hcs ▸ List.mem_cons_self c rest)
    have hr : sep ∉ rest := fun hm => h (List.mem_cons_of_mem c hm)
    simp [splitFirst, hc, ih hr]

/-- splitFirst splits exactly at the first separator. -/
theorem splitFirst_append (sep : Char) (a : List Char) :
    ∀ p : List Char, sep ∉ p → splitFirst sep (p ++ sep :: a) = some (p, a) := by
  intro p
  induction p with
  | nil => intro _; simp [splitFirst]
  | cons c rest ih =>
    intro h
    have hc : ¬ c = sep := fun hcs => h (hcs ▸ List.mem_cons_self c rest)
    have hr : sep ∉ rest := fun hm => h (List.mem_cons_of_mem c hm)
    simp [splitFirst, hc, ih hr]

/-- Claim C7 (amended): parseUnit recognizes the literal "lovelace"
sentinel; every successful parse yields a policy part of exactly 56
characters (separator-delimited or sliced at offset 56); a dotted unit whose
policy part is not 56 characters long and an undotted unit shorter than 56
characters are rejected.  The 56-character check is purely a LENGTH check:
hex validity of the policy prefix is never examined (see the
counterexample), so the claim's "invalid-unit error for every input whose
policy prefix is not valid hex" holds only in its length part. -/
theorem parseUnit_policy_length :
    (parseUnit "lovelace" = Except.ok ("lovelace", "")) ∧
    (∀ (s p a : String), parseUnit s = Except.ok (p, a) →
      p = "lovelace" ∨ p.length = 56) ∧
    (∀ (p a : String), '.' ∉ p.data → p.data.length ≠ 56 →
      parseUnit (p ++ "." ++ a) = Except.error "invalid policyId length in unit") ∧
    (∀ s : String, '.' ∉ s.data → s.data.length < 56 → s ≠ "lovelace" →
      parseUnit s =
        Except.error "invalid unit format, expected policy.assetNameHex or lovelace") := by
  refine ⟨rfl, ?_, ?_, ?_⟩
  · intro s p a h
    unfold parseUnit at h
    by_cases hl : s = "lovelace"
    · rw [if_pos hl] at h
      left
      exact (Prod.mk.injEq _ _ _ _ ▸ (Except.ok.injEq _ _ ▸ h)).1.symm ▸ rfl
    · rw [if_neg hl] at h
      cases hsp : splitFirst '.' s.data with
      | some pa =>
        obtain ⟨p0, a0⟩ := pa
        rw [hsp] at h
        dsimp only at h
        by_cases h56 : p0.length ≠ 56
        · rw [if_pos h56] at h
          cases h
        · rw [if_neg h56] at h
          right
          have hp : p = String.mk p0 := by
            cases h
            rfl
          rw [hp]
          show p0.length = 56
          omega
      | none =>
        rw [hsp] at h
        dsimp only at h
        by_cases h56 : s.data.length = 56
        · rw [if_pos h56] at h
          right
          have hp : p = String.mk s.data := by
            cases h
            rfl
          rw [hp]
          exact h56
        · rw [if_neg h56] at h
          by_cases hge : s.data.length ≥ 56
          · rw [if_pos hge] at h
            right
            have hp : p = String.mk (s.data.take 56) := by
              cases h
              rfl
            rw [hp]
            show (s.data.take 56).length = 56
            rw [List.length_take]
            omega
          · rw [if_neg hge] at h
            cases h
  · intro p a hmem h56
    have hdata : (p ++ "." ++ a).data = p.data ++ '.' :: a.data := by
      simp [String.data_append]
    have hnl : (p ++ "." ++ a) ≠ "lovelace" := by
      intro hcon
      have hdot : '.' ∈ "lovelace".data := by
        rw [← hcon, hdata]
        exact List.mem_append_right _ (List.mem_cons_self _ _)
      revert hdot
      decide
    unfold parseUnit
    rw [if_neg hnl, hdata, splitFirst_append '.' a.data p.data hmem]
    dsimp only
    rw [if_pos h56]
  · intro s hmem hlen hnl
    unfold parseUnit
    rw [if_neg hnl, splitFirst_not_mem '.' s.data hmem]
    dsimp only
    rw [if_neg (by omega), if_neg (by omega)]

/-- Claim C7, witness: the dotted-form length rejection fires on a concrete
short policy id. -/
theorem parseUnit_policy_length_witness :
    parseUnit ("abc" ++ "." ++ "def") = Except.error "invalid policyId length in unit" :=
  parseUnit_policy_length.2.2.1 "abc" "def" (by decide) (by decide)

/-- Claim C7, counterexample to the claim as stated: a 56-character policy
prefix that is NOT valid hex is accepted by parseUnit with no error, against
the claim that every input whose policy prefix is not valid hex of exactly
56 characters yields an invalid-unit error. -/
theorem parseUnit_no_hex_check :
    parseUnit "zzzzzzzzzzzzzzzzzzzzzzzzzzzzzzzzzzzzzzzzzzzzzzzzzzzzzzzz" =
      Except.ok ("zzzzzzzzzzzzzzzzzzzzzzzzzzzzzzzzzzzzzzzzzzzzzzzzzzzzzzzz", "") ∧
    hexDecode "zzzzzzzzzzzzzzzzzzzzzzzzzzzzzzzzzzzzzzzzzzzzzzzzzzzzzzzz" = none := by
  constructor
  · rfl
  · decide

/-- A successful strict inline-datum step with a nonempty inline field always
carries the decoded inline datum. -/
theorem bfInlineDatumStrict_inline {PD : Type} (cborPD : List Nat → Option PD)
    (s : String) (d0 d : Option (DatumOpt PD)) (hs : s ≠ "")
    (h : bfInlineDatumStrict cborPD s d0 = Except.ok d) :
    ∃ bs pd, hexDecode s = some bs ∧ cborPD bs = some pd ∧
      d = some (DatumOpt.inlineD pd) := by
  unfold bfInlineDatumStrict at h
  rw [if_pos hs] at h
  cases hhex : hexDecode s with
  | none => rw [hhex] at h; cases h
  | some bs =>
    rw [hhex] at h
    dsimp only at h
    cases hc : cborPD bs with
    | none => rw [hc] at h; cases h
    | some pd =>
      rw [hc] at h
      cases h
      exact ⟨bs, pd, rfl, hc, rfl⟩

/-- Claim C1 (amended): the Blockfrost strict output builder produces a
post-Alonzo output exactly when a datum hash, an inline datum or a reference
script is present, and whenever an inline datum is present (in particular
when a datum hash is present as well) the resulting Datum field is the
decoded inline datum.  The rule does NOT hold for every adapter: the Kupo
match adapter constructs every output as post-Alonzo, whatever fields are
absent. -/
theorem era_decision_rule :
    (∀ (Addr PD : Type) (dec : String → Option Addr) (cbor : List Nat → Option PD)
        (gets : String → Except PErr String) (txh : String) (o : BlockfrostUTXO)
        (u : GoUTxO Addr PD),
      adaptBlockfrostTxOutputToApolloUTxO dec cbor gets txh o = Except.ok u →
      (isPostAlonzoOut u.output = true ↔
        (o.dataHash ≠ "" ∨ o.inlineDatum ≠ "" ∨ o.refScriptHash ≠ ""))) ∧
    (∀ (Addr PD : Type) (dec : String → Option Addr) (cbor : List Nat → Option PD)
        (gets : String → Except PErr String) (txh : String) (o : BlockfrostUTXO)
        (u : GoUTxO Addr PD),
      o.dataHash ≠ "" → o.inlineDatum ≠ "" →
      adaptBlockfrostTxOutputToApolloUTxO dec cbor gets txh o = Except.ok u →
      ∃ bs pd, hexDecode o.inlineDatum = some bs ∧ cbor bs = some pd ∧
        outputDatum u.output = some (DatumOpt.inlineD pd)) ∧
    (∀ (Addr PD : Type) (dec : String → Option Addr) (cbor : List Nat → Option PD)
        (getD : String → Except PErr String) (getS : String → Except PErr (Option String))
        (m : KupoMatch) (addr : String) (u : GoUTxO Addr PD),
      adaptKupoMatchToApolloUTxO dec cbor getD getS m addr = Except.ok u →
      isPostAlonzoOut u.output = true) := by
  refine ⟨?_, ?_, ?_⟩
  · intro Addr PD dec cbor gets txh o u h
    unfold adaptBlockfrostTxOutputToApolloUTxO at h
    cases hhex : hexDecode txh with
    | none => rw [hhex] at h; cases h
    | some txb =>
      rw [hhex] at h
      dsimp only at h
      cases hdec : dec o.address with
      | none => rw [hdec] at h; cases h
      | some addr =>
        rw [hdec] at h
        dsimp only at h
        cases hv : bfAmountsStrict o.amount 0 [] with
        | error e => rw [hv] at h; cases h
        | ok ca =>
          obtain ⟨coin, assets⟩ := ca
          rw [hv] at h
          dsimp only at h
          by_cases hq : o.dataHash ≠ "" ∨ o.inlineDatum ≠ "" ∨ o.refScriptHash ≠ ""
          · rw [if_pos hq] at h
            cases hd : bfInlineDatumStrict cbor o.inlineDatum (bfDatumHashStep o.dataHash) with
            | error e => rw [hd] at h; cases h
            | ok d =>
              rw [hd] at h
              dsimp only at h
              cases hsr : bfScriptRefStrict gets o.refScriptHash with
              | error e => rw [hsr] at h; cases h
              | ok sref =>
                rw [hsr] at h
                cases h
                simpa [isPostAlonzoOut] using hq
          · rw [if_neg hq] at h
            cases h
            simpa [isPostAlonzoOut] using hq
  · intro Addr PD dec cbor gets txh o u hdh hid h
    unfold adaptBlockfrostTxOutputToApolloUTxO at h
    cases hhex : hexDecode txh with
    | none => rw [hhex] at h; cases h
    | some txb =>
      rw [hhex] at h
      dsimp only at h
      cases hdec : dec o.address with
      | none => rw [hdec] at h; cases h
      | some addr =>
        rw [hdec] at h
        dsimp only at h
        cases hv : bfAmountsStrict o.amount 0 [] with
        | error e => rw [hv] at h; cases h
        | ok ca =>
          obtain ⟨coin, assets⟩ := ca
          rw [hv] at h
          dsimp only at h
          rw [if_pos (Or.inl hdh)] at h
          cases hd : bfInlineDatumStrict cbor o.inlineDatum (bfDatumHashStep o.dataHash) with
          | error e => rw [hd] at h; cases h
          | ok d =>
            rw [hd] at h
            dsimp only at h
            cases hsr : bfScriptRefStrict gets o.refScriptHash with
            | error e => rw [hsr] at h; cases h
            | ok sref =>
              rw [hsr] at h
              cases h
              obtain ⟨bs, pd, h1, h2, h3⟩ :=
                bfInlineDatumStrict_inline cbor o.inlineDatum (bfDatumHashStep o.dataHash) d hid hd
              exact ⟨bs, pd, h1, h2, by simpa [outputDatum] using h3⟩
  · intro Addr PD dec cbor getD getS m addr u h
    unfold adaptKupoMatchToApolloUTxO at h
    cases hhex : hexDecode m.transactionID with
    | none => rw [hhex] at h; cases h
    | some txb =>
      rw [hhex] at h
      dsimp only at h
      cases hdec : dec addr with
      | none =>
        rw [hdec] at h
        cases h
      | some a =>
        rw [hdec] at h
        dsimp only at h
        cases h
        rfl

/-- Claim C1, witness: the era rule instantiated on a concrete output that
carries both a datum hash and an inline datum. -/
theorem era_decision_rule_witness :
    isPostAlonzoOut exUtxoBoth.output = true ↔
      (exOutBoth.dataHash ≠ "" ∨ exOutBoth.inlineDatum ≠ "" ∨
        exOutBoth.refScriptHash ≠ "") :=
  era_decision_rule.1 Unit Unit unitDec unitCbor okScript "ab" exOutBoth exUtxoBoth
    (by decide)

/-- Claim C1, counterexample to the claim as stated: the Kupo match adapter
builds a post-Alonzo output from a match that has no datum hash, no inline
datum and no reference script, where the claimed rule requires a pre-Alonzo
output. -/
theorem kupo_output_always_post_alonzo :
    (adaptKupoMatchToApolloUTxO unitDec unitCbor noDatum noKupoScript exKupoBare
        "addr").map
        (fun u => (isPostAlonzoOut u.output, outputDatum u.output,
          outputScriptRef u.output)) =
      Except.ok (true, none, none) ∧
    exKupoBare.datumHash = "" ∧ exKupoBare.scriptHash = "" := by
  refine ⟨?_, rfl, rfl⟩
  rfl

/-- Claim C8 (amended): the strict by-reference output builder propagates
decode errors — a malformed tx-hash hex and a malformed quantity abort the
call — but the address-listing adapter does NOT: it silently drops an item
whose tx hash fails to hex-decode (returning a plain list, it has no error
channel), and the Maestro cursor-walk item conversion discards the tx-hash
hex error with the blank identifier, succeeding even on a malformed hash and
silently using the bytes decoded before the error as the transaction id
(for "abzz", the single byte 0xab). -/
theorem decode_error_propagation :
    (∀ (Addr PD : Type) (dec : String → Option Addr) (cbor : List Nat → Option PD)
        (gets : String → Except PErr String) (txh : String) (o : BlockfrostUTXO),
      hexDecode txh = none →
      adaptBlockfrostTxOutputToApolloUTxO dec cbor gets txh o =
        Except.error (PErr.msg "invalid tx_hash hex")) ∧
    (∀ (Addr PD : Type) (dec : String → Option Addr) (cbor : List Nat → Option PD)
        (gets : String → Except PErr String) (txh : String) (o : BlockfrostUTXO)
        (bs : List Nat) (a : Addr) (e : PErr),
      hexDecode txh = some bs → dec o.address = some a →
      bfAmountsStrict o.amount 0 [] = Except.error e →
      adaptBlockfrostTxOutputToApolloUTxO dec cbor gets txh o = Except.error e) ∧
    (∀ (Addr PD : Type) (dec : String → Option Addr) (cbor : List Nat → Option PD)
        (gets : String → Except PErr String) (addr : String) (u : BlockfrostUTXO)
        (us : List BlockfrostUTXO),
      hexDecode u.txHash = none →
      adaptBlockfrostAddressUTxOs dec cbor gets addr (u :: us) =
        (adaptBlockfrostAddressUTxOs dec cbor gets addr us : List (GoUTxO Addr PD))) ∧
    (∀ (Addr PD : Type) (cborOut : List Nat → Except PErr (TxOutput Addr PD))
        (s c : String) (ix : Nat) (o : TxOutput Addr PD),
      hexDecode s = none →
      cborOut (hexDecodePartial c) = Except.ok o →
      maestroPageItemAdapt cborOut s c ix =
        Except.ok ⟨⟨hexDecodePartial s, ix⟩, o⟩) ∧
    (hexDecode "abzz" = none ∧ hexDecodePartial "abzz" = [171]) := by
  refine ⟨?_, ?_, ?_, ?_, by decide, by decide⟩
  · intro Addr PD dec cbor gets txh o h
    unfold adaptBlockfrostTxOutputToApolloUTxO
    rw [h]
  · intro Addr PD dec cbor gets txh o bs a e hh hd hv
    unfold adaptBlockfrostTxOutputToApolloUTxO
    rw [hh]
    dsimp only
    rw [hd]
    dsimp only
    rw [hv]
  · intro Addr PD dec cbor gets addr u us h
    have hitem : adaptBfAddressUtxoItem dec cbor gets addr u = (none : Option (GoUTxO Addr PD)) := by
      unfold adaptBfAddressUtxoItem
      rw [h]
    unfold adaptBlockfrostAddressUTxOs
    rw [List.filterMap_cons, hitem]
  · intro Addr PD cborOut s c ix o h hc
    unfold maestroPageItemAdapt
    dsimp only
    rw [hc]

/-- Claim C8, witness: a malformed tx hash aborts the strict builder on
concrete input, while the Maestro page-item conversion succeeds on the
malformed hash "abzz" using its partially decoded byte 0xab. -/
theorem decode_error_propagation_witness :
    (adaptBlockfrostTxOutputToApolloUTxO unitDec unitCbor okScript "zz"
        exOutBoth = (Except.error (PErr.msg "invalid tx_hash hex") :
          Except PErr (GoUTxO Unit Unit))) ∧
    maestroPageItemAdapt exCborOut "abzz" "cd" 0 =
      Except.ok ⟨⟨[171], 0⟩, TxOutput.preAlonzo () (mkGoValue 0 [])⟩ :=
  ⟨decode_error_propagation.1 Unit Unit unitDec unitCbor okScript "zz" exOutBoth
      (by decide),
    (decode_error_propagation.2.2.2.1 Unit Unit exCborOut "abzz" "cd" 0
        (TxOutput.preAlonzo () (mkGoValue 0 [])) (by decide) rfl).trans (by rfl)⟩

/-- Claim C8, counterexample to the claim as stated: the address-listing
adapter silently drops a UTxO whose tx hash is malformed hex — the caller
receives an empty list and no error, where the claim requires a decode error
to propagate. -/
theorem malformed_item_silently_skipped :
    adaptBlockfrostAddressUTxOs unitDec unitCbor okScript "addr" [exBadHashUtxo] =
      ([] : List (GoUTxO Unit Unit)) ∧
    hexDecode exBadHashUtxo.txHash = none := by
  refine ⟨?_, by decide⟩
  rfl

/-- The Blockfrost page loop over a finite backend whose non-final pages are
full (at least 100 items): starting at page k+1 with accumulator acc it
returns the accumulator followed by all remaining pages in order. -/
theorem bfPagedLoop_chain {α : Type} (pages : List (List α)) :
    ∀ fuel k acc, (∀ i, i + 1 < pages.length → 100 ≤ ((pages.get? i).getD []).length) →
      k ≤ pages.length → pages.length + 1 ≤ k + fuel →
      bfPagedLoop (bfBackendOfPages pages) fuel (k + 1) acc =
        Except.ok (acc ++ (pages.drop k).flatten) := by
  intro fuel
  induction fuel with
  | zero =>
    intro k acc h100 hk hf
    omega
  | succ fuel ih =>
    intro k acc h100 hk hf
    rw [bfPagedLoop]
    have hback : bfBackendOfPages pages (k + 1) = Except.ok ((pages.get? k).getD []) := by
      simp [bfBackendOfPages]
    rw [hback]
    dsimp only
    by_cases hklen : k = pages.length
    · have hnone : pages.get? k = none := by
        rw [List.get?_eq_none]
        omega
      rw [hnone]
      simp [hklen, List.drop_length]
    · have hklt : k < pages.length := by omega
      have hsome : pages.get? k = some pages[k] := List.get?_eq_get hklt
      rw [hsome]
      dsimp only [Option.getD]
      have hdrop : pages.drop k = pages[k] :: pages.drop (k + 1) :=
        List.drop_eq_getElem_cons hklt
      by_cases hz : pages[k].length = 0
      · rw [if_pos hz]
        have hlast : k + 1 = pages.length := by
          by_contra hcon
          have h2 := h100 k (by omega)
          rw [hsome] at h2
          simp at h2
          omega
        have hde : pages.drop (k + 1) = [] := by
          rw [hlast]
          simp
        have hpk : pages[k] = [] := List.length_eq_zero.mp hz
        rw [hdrop, hde, hpk]
        simp
      · rw [if_neg hz]
        by_cases hs : pages[k].length < 100
        · rw [if_pos hs]
          have hlast : k + 1 = pages.length := by
            by_contra hcon
            have h2 := h100 k (by omega)
            rw [hsome] at h2
            simp at h2
            omega
          have hde : pages.drop (k + 1) = [] := by
            rw [hlast]
            simp
          rw [hdrop, hde]
          simp
        · rw [if_neg hs]
          have hrec := ih (k + 1) (acc ++ pages[k]) h100 (by omega) (by omega)
          rw [hrec]
          conv_rhs => rw [hdrop, List.flatten_cons]
          rw [List.append_assoc]

/-- Adapting a page with an always-successful adapter maps it. -/
theorem maestroAdaptList_ok {ρ β : Type} (f : ρ → β) :
    ∀ l : List ρ, maestroAdaptList (fun r => Except.ok (f r)) l = Except.ok (l.map f) := by
  intro l
  induction l with
  | nil => rfl
  | cons r rest ih => simp [maestroAdaptList, ih]

/-- The Maestro cursor loop over a finite page chain: entered at cursor k it
returns the accumulator followed by all pages from k on, in chain order. -/
theorem maestroCursorLoop_chain {ρ β : Type} (pages : List (List ρ)) (f : ρ → β) :
    ∀ fuel k acc, k < pages.length → pages.length ≤ k + fuel →
      maestroCursorLoop (maestroChainFetch pages) (fun r => Except.ok (f r)) fuel k acc =
        Except.ok (acc ++ ((pages.drop k).flatten.map f)) := by
  intro fuel
  induction fuel with
  | zero =>
    intro k acc hk hf
    omega
  | succ fuel ih =>
    intro k acc hk hf
    rw [maestroCursorLoop]
    have hfetch : maestroChainFetch pages (some k) =
        Except.ok ⟨(pages.get? k).getD [],
          if k + 1 < pages.length then some (k + 1) else none⟩ := rfl
    rw [hfetch]
    dsimp only
    rw [maestroAdaptList_ok]
    dsimp only
    have hsome : pages.get? k = some pages[k] := List.get?_eq_get hk
    rw [hsome]
    dsimp only [Option.getD]
    have hdrop : pages.drop k = pages[k] :: pages.drop (k + 1) :=
      List.drop_eq_getElem_cons hk
    by_cases hlt : k + 1 < pages.length
    · rw [if_pos hlt]
      dsimp only
      rw [ih (k + 1) _ hlt (by omega)]
      conv_rhs => rw [hdrop, List.flatten_cons]
      simp [List.append_assoc]
    · rw [if_neg hlt]
      dsimp only
      have hde : pages.drop (k + 1) = [] := List.drop_eq_nil_of_le (by omega)
      conv_rhs => rw [hdrop, List.flatten_cons, hde]
      simp

/-- All-successful filterMap preserves length. -/
theorem filterMap_length_of_isSome {α β : Type} (f : α → Option β) :
    ∀ l : List α, (∀ a ∈ l, (f a).isSome = true) → (l.filterMap f).length = l.length := by
  intro l
  induction l with
  | nil => intro _; rfl
  | cons a rest ih =>
    intro h
    have ha := h a (List.mem_cons_self a rest)
    cases hfa : f a with
    | none => rw [hfa] at ha; cases ha
    | some b =>
      rw [List.filterMap_cons, hfa]
      simp only [List.length_cons]
      rw [ih (fun x hx => h x (List.mem_cons_of_mem a hx))]

/-- Claim C2 (amended): the Blockfrost page-number walk keeps fetching until
an empty or short page (the sentinel page size is 100), returns the
concatenation of all pages in page order — with exactly the backend total
when every item adapts — and maps a first-page not-found to an empty
success; the Maestro cursor walk also accumulates all pages in chain order
until the cursor is absent, but a first-page backend error — a not-found
included — is returned to the caller as an error, not as an empty result. -/
theorem pagination_completeness :
    (∀ (α : Type) (pages : List (List α)),
      (∀ i, i + 1 < pages.length → 100 ≤ ((pages.get? i).getD []).length) →
      ∀ fuel, pages.length + 1 ≤ fuel →
      bfPagedLoop (bfBackendOfPages pages) fuel 1 [] = Except.ok pages.flatten) ∧
    (∀ (Addr PD : Type) (dec : String → Option Addr) (cbor : List Nat → Option PD)
        (gets : String → Except PErr String) (addr : String)
        (pages : List (List BlockfrostUTXO)),
      (∀ i, i + 1 < pages.length → 100 ≤ ((pages.get? i).getD []).length) →
      ∀ fuel, pages.length + 1 ≤ fuel →
      bfGetUtxosByAddress dec cbor gets (bfBackendOfPages pages) fuel addr =
        Except.ok (adaptBlockfrostAddressUTxOs dec cbor gets addr pages.flatten)) ∧
    (∀ (Addr PD : Type) (dec : String → Option Addr) (cbor : List Nat → Option PD)
        (gets : String → Except PErr String) (addr : String)
        (us : List BlockfrostUTXO),
      (∀ u ∈ us, (adaptBfAddressUtxoItem dec cbor gets addr u).isSome = true) →
      (adaptBlockfrostAddressUTxOs dec cbor gets addr us : List (GoUTxO Addr PD)).length =
        us.length) ∧
    (∀ (α : Type) (backend : Nat → Except PErr (List α)) (fuel : Nat),
      1 ≤ fuel → backend 1 = Except.error PErr.notFound →
      bfPagedLoop backend fuel 1 [] = Except.ok []) ∧
    (∀ (ρ β : Type) (pages : List (List ρ)) (f : ρ → β) (fuel : Nat),
      pages.length ≤ fuel + 1 →
      maestroGetUtxosByAddress (maestroChainFetch pages) (fun r => Except.ok (f r))
        (fun r => Except.ok (f r)) fuel = Except.ok (pages.flatten.map f)) ∧
    (∀ (ρ β : Type) (fetch : Option Nat → Except PErr (MPage ρ))
        (a1 a2 : ρ → Except PErr β) (fuel : Nat) (e : PErr),
      fetch none = Except.error e →
      maestroGetUtxosByAddress fetch a1 a2 fuel = Except.error e) := by
  refine ⟨?_, ?_, ?_, ?_, ?_, ?_⟩
  · intro α pages h100 fuel hf
    have h := bfPagedLoop_chain pages fuel 0 [] h100 (by omega) (by omega)
    simpa using h
  · intro Addr PD dec cbor gets addr pages h100 fuel hf
    unfold bfGetUtxosByAddress
    have h := bfPagedLoop_chain pages fuel 0 [] h100 (by omega) (by omega)
    simp only [Nat.zero_add] at h
    rw [h]
    simp [Except.map]
  · intro Addr PD dec cbor gets addr us hall
    unfold adaptBlockfrostAddressUTxOs
    exact filterMap_length_of_isSome _ us hall
  · intro α backend fuel h1 hb
    cases fuel with
    | zero => omega
    | succ fuel =>
      rw [bfPagedLoop, hb]
      simp
  · intro ρ β pages f fuel hf
    rw [maestroGetUtxosByAddress]
    have hfetch : maestroChainFetch pages none =
        Except.ok ⟨(pages.get? 0).getD [],
          if 0 + 1 < pages.length then some (0 + 1) else none⟩ := rfl
    rw [hfetch]
    dsimp only
    rw [maestroAdaptList_ok]
    dsimp only
    by_cases h1 : 0 + 1 < pages.length
    · rw [if_pos h1]
      dsimp only
      have h0 : 0 < pages.length := by omega
      have hsome : pages.get? 0 = some pages[0] := List.get?_eq_get h0
      rw [hsome]
      dsimp only [Option.getD]
      rw [maestroCursorLoop_chain pages f fuel (0 + 1) _ h1 (by omega)]
      conv_rhs => rw [← List.drop_zero pages, List.drop_eq_getElem_cons h0, List.flatten_cons]
      simp
    · rw [if_neg h1]
      dsimp only
      cases pages with
      | nil => rfl
      | cons p ps =>
        cases ps with
        | nil => simp
        | cons q qs => simp at h1
  · intro ρ β fetch a1 a2 fuel e he
    rw [maestroGetUtxosByAddress, he]

/-- Claim C2, witness: a two-page backend (a full page of 100 items and a
final short page) aggregates to the concatenation, and the Maestro error
propagation fires on a concrete failing backend. -/
theorem pagination_completeness_witness :
    bfPagedLoop (bfBackendOfPages [List.range 100, [5]]) 3 1 [] =
      Except.ok ([List.range 100, [5]] : List (List Nat)).flatten :=
  pagination_completeness.1 Nat [List.range 100, [5]]
    (by
      intro i hi
      have h0 : i = 0 := by
        simp at hi
        omega
      subst h0
      decide)
    3 (by decide)

/-- Claim C2, counterexample to the claim as stated: a first-page not-found
on the Maestro adapter is returned as a NotFound error, not as an empty
success. -/
theorem maestro_first_page_not_found_errors :
    maestroGetUtxosByAddress (fun _ => Except.error PErr.notFound)
        (fun (r : Unit) => Except.ok r) (fun r => Except.ok r) 1 =
      Except.error PErr.notFound := by
  rfl

/-- When every fetch failure is a not-found, the fan-in map build succeeds
and contains exactly the successfully fetched hashes. -/
theorem bfBuildTxMap_ok (fetch : String → Except PErr TxUtxos)
    (hf : ∀ h e, fetch h = Except.error e → e = PErr.notFound) :
    ∀ hs : List String, bfBuildTxMap fetch hs =
      Except.ok (hs.filterMap (fun x => (eToOption (fetch x)).map (fun tx => (x, tx)))) := by
  intro hs
  induction hs with
  | nil => rfl
  | cons x rest ih =>
    rw [bfBuildTxMap, List.filterMap_cons]
    cases hfe : fetch x with
    | error e =>
      have he := hf x e hfe
      subst he
      simp only [eToOption, Option.map_none', reduceIte]
      exact ih
    | ok tx =>
      simp only [eToOption, Option.map_some']
      rw [ih]
      rfl

/-- A hash outside the build list is absent from the built map. -/
theorem alookup_fetchMap_not_mem (fetch : String → Except PErr TxUtxos) :
    ∀ (hs : List String) (h : String), h ∉ hs →
      alookup (hs.filterMap (fun x => (eToOption (fetch x)).map (fun tx => (x, tx)))) h =
        none := by
  intro hs
  induction hs with
  | nil => intro h _; rfl
  | cons x rest ih =>
    intro h hm
    have hx : h ≠ x := fun hh => hm (hh ▸ List.mem_cons_self x rest)
    have hr : h ∉ rest := fun hh => hm (List.mem_cons_of_mem x hh)
    rw [List.filterMap_cons]
    cases hfe : fetch x with
    | error e =>
      simp only [eToOption, Option.map_none']
      exact ih h hr
    | ok tx =>
      simp only [eToOption, Option.map_some']
      rw [alookup, if_neg (fun hh => hx hh.symm)]
      exact ih h hr

/-- Looking a hash of the build list up in the built map gives exactly the
fetch result of that hash. -/
theorem alookup_fetchMap (fetch : String → Except PErr TxUtxos) :
    ∀ (hs : List String) (h : String), h ∈ hs →
      alookup (hs.filterMap (fun x => (eToOption (fetch x)).map (fun tx => (x, tx)))) h =
        eToOption (fetch h) := by
  intro hs
  induction hs with
  | nil =>
    intro h hm
    cases hm
  | cons x rest ih =>
    intro h hm
    rw [List.filterMap_cons]
    cases hfe : fetch x with
    | error e =>
      simp only [eToOption, Option.map_none']
      by_cases hx : h = x
      · subst hx
        by_cases hr : h ∈ rest
        · exact ih h hr
        · exact (alookup_fetchMap_not_mem fetch rest h hr).trans (by rw [hfe])
      · have hr : h ∈ rest := by
          cases List.mem_cons.mp hm with
          | inl hh => exact absurd hh hx
          | inr hh => exact hh
        exact ih h hr
    | ok tx =>
      simp only [eToOption, Option.map_some']
      rw [alookup]
      by_cases hx : x = h
      · subst hx
        rw [if_pos rfl, hfe]
      · rw [if_neg hx]
        have hr : h ∈ rest := by
          cases List.mem_cons.mp hm with
          | inl hh => exact absurd hh.symm hx
          | inr hh => exact hh
        exact ih h hr

/-- With an always-successful adaptation and a map that reflects the fetch
results, the selection phase returns exactly one entry per resolvable
requested reference, in request order. -/
theorem bfSelectOutputs_resolve {β : Type} (fetch : String → Except PErr TxUtxos)
    (f : String → BlockfrostUTXO → β) (m : List (String × TxUtxos)) :
    ∀ refs : List OutRef,
      (∀ r ∈ refs, alookup m r.txHash = eToOption (fetch r.txHash)) →
      bfSelectOutputs (fun h o => Except.ok (f h o)) m refs =
        Except.ok (refs.filterMap (bfResolveRef fetch f)) := by
  intro refs
  induction refs with
  | nil => intro _; rfl
  | cons ref rest ih =>
    intro hm
    have hhead := hm ref (List.mem_cons_self ref rest)
    have htail : ∀ r ∈ rest, alookup m r.txHash = eToOption (fetch r.txHash) :=
      fun r hr => hm r (List.mem_cons_of_mem ref hr)
    rw [bfSelectOutputs, hhead, List.filterMap_cons]
    cases hfe : fetch ref.txHash with
    | error e =>
      simp only [eToOption]
      have hres : bfResolveRef fetch f ref = none := by
        unfold bfResolveRef
        rw [hfe]
      rw [hres]
      exact ih htail
    | ok tx =>
      simp only [eToOption]
      cases hfind : tx.outputs.find? (fun o => o.outputIndex = ref.index) with
      | none =>
        have hres : bfResolveRef fetch f ref = none := by
          unfold bfResolveRef
          rw [hfe]
          dsimp only
          rw [hfind]
          rfl
        rw [hres]
        exact ih htail
      | some o =>
        have hres : bfResolveRef fetch f ref = some (f ref.txHash o) := by
          unfold bfResolveRef
          rw [hfe]
          dsimp only
          rw [hfind]
          rfl
        rw [hres]
        rw [ih htail]

/-- Claim C3 (amended): the Blockfrost batch lookup tolerates per-transaction
not-found fetches (those references contribute nothing), aborts the whole
call on any other fetch error, and returns exactly one UTxO per resolvable
requested reference in request order; the Maestro batch lookup instead
aborts the whole call on EVERY per-reference fetch error, a not-found
included. -/
theorem outref_batch_resolution :
    (∀ (β : Type) (fetch : String → Except PErr TxUtxos) (f : String → BlockfrostUTXO → β)
        (outRefs : List OutRef),
      (∀ h e, fetch h = Except.error e → e = PErr.notFound) →
      bfGetUtxosByOutRef fetch (fun h o => Except.ok (f h o)) outRefs =
        Except.ok (outRefs.filterMap (bfResolveRef fetch f))) ∧
    (∀ (β : Type) (fetch : String → Except PErr TxUtxos)
        (adapt : String → BlockfrostUTXO → Except PErr β) (r : OutRef) (e : PErr),
      e ≠ PErr.notFound → fetch r.txHash = Except.error e →
      bfGetUtxosByOutRef fetch adapt [r] = Except.error e) ∧
    (∀ (ρ β : Type) (fetchRef : OutRef → Except PErr ρ) (adapt : ρ → Except PErr β)
        (ref : OutRef) (rest : List OutRef) (e : PErr),
      fetchRef ref = Except.error e →
      maestroGetUtxosByOutRef fetchRef adapt (ref :: rest) = Except.error e) := by
  refine ⟨?_, ?_, ?_⟩
  · intro β fetch f outRefs hf
    unfold bfGetUtxosByOutRef
    cases outRefs with
    | nil => rfl
    | cons r rs =>
      rw [if_neg (by simp)]
      rw [bfBuildTxMap_ok fetch hf]
      dsimp only
      exact bfSelectOutputs_resolve fetch f _ (r :: rs)
        (fun x hx =>
          alookup_fetchMap fetch _ x.txHash
            (List.mem_dedup.mpr (List.mem_map_of_mem _ hx)))
  · intro β fetch adapt r e hne hfe
    have hbuild : bfBuildTxMap fetch [r.txHash] = Except.error e := by
      rw [bfBuildTxMap, hfe]
      dsimp only
      rw [if_neg hne]
    unfold bfGetUtxosByOutRef
    rw [if_neg (by simp)]
    have hd : (([r] : List OutRef).map (fun x => x.txHash)).dedup = [r.txHash] := by
      simp
    rw [hd, hbuild]
  · intro ρ β fetchRef adapt ref rest e hfe
    rw [maestroGetUtxosByOutRef, hfe]

/-- Claim C3, witness: a concrete one-reference batch resolves to the single
matching output. -/
theorem outref_batch_resolution_witness :
    bfGetUtxosByOutRef exFetchTx (fun h o => Except.ok (exSelFun h o)) [⟨"ab", 0⟩] =
      Except.ok [0] :=
  (outref_batch_resolution.1 Nat exFetchTx exSelFun [⟨"ab", 0⟩]
    (fun h e he => by simp [exFetchTx] at he)).trans (by rfl)

/-- Claim C3, counterexample to the claim as stated: on the Maestro adapter a
per-transaction not-found is NOT tolerated — the whole call aborts with the
error instead of that reference silently contributing nothing. -/
theorem maestro_outref_not_found_aborts :
    maestroGetUtxosByOutRef (fun _ => Except.error PErr.notFound)
        (fun (r : Unit) => Except.ok r) [⟨"ab", 0⟩] = Except.error PErr.notFound := by
  rfl
